import Mathlib

/-!
Verification of the Mini-Reconciliation-Tool core pipeline
(`src/mini_reconcile/core/{merger,classifier,finalizer,reconciler}.py`).

Shallow embedding conventions:
* A pandas scalar cell is a `Value`: an integer, a string, or `null` (pandas
  `NaN`, which CSV loading produces for missing cells).  Pandas element-wise
  `==` yields `False` whenever either operand is `NaN`; this is `valEq`.
* A DataFrame row is an association list from column name to `Value`; a
  DataFrame is its ordered column list plus its ordered row list.
* Fallible pandas calls (the merge with a missing key raises `KeyError`,
  which `merge_dataframes` re-raises) are modelled with `Except String`.
-/

/-- A scalar cell value.  `null` stands for pandas `NaN` / a missing cell. -/
inductive Value where
  | int : Int → Value
  | str : String → Value
  | null : Value
  deriving DecidableEq

/-- Pandas element-wise equality `lhs == rhs`: `NaN` compares unequal to
everything, including another `NaN`; otherwise plain value equality on the
native type (integers with integers, text with text, never across types). -/
def valEq : Value → Value → Bool
  | Value.null, _ => false
  | _, Value.null => false
  | a, b => decide (a = b)

/-- A DataFrame row: ordered association list column-name ↦ cell value. -/
abbrev Row : Type := List (String × Value)

/-- First-match association-list lookup (how unique pandas column labels
resolve to a cell). -/
def alookup {α : Type} : String → List (String × α) → Option α
  | _, [] => none
  | c, (k, v) :: r => if c = k then some v else alookup c r

/-- Read column `c` of row `r` (`row[c]`); `null` when the column is absent
(the theorems below only read columns that exist). -/
def getV (r : Row) (c : String) : Value := (alookup c r).getD Value.null

/-- Column assignment `row[c] = v`: overwrite the existing cell in place, or
append a new column at the end (pandas appends new columns on the right). -/
def setCol (r : Row) (c : String) (v : Value) : Row :=
  if (alookup c r).isSome then
    r.map (fun p => if p.1 = c then (c, v) else p)
  else
    r ++ [(c, v)]

/-- A DataFrame: its ordered column labels and its ordered rows. -/
structure DF where
  cols : List String
  rows : List Row
  deriving DecidableEq

/-- Boolean-mask filtering `df[cond]` followed by `.copy()`: keeps the column
set, keeps only rows satisfying the mask, in input order, as a fresh frame. -/
def filterDF (df : DF) (p : Row → Bool) : DF :=
  ⟨df.cols, df.rows.filter p⟩

/-- Whole-column assignment `df[c] = v`: sets `c` to `v` on every row and
appends `c` to the column list when it is new. -/
def setColDF (df : DF) (c : String) (v : Value) : DF :=
  ⟨if c ∈ df.cols then df.cols else df.cols ++ [c],
   df.rows.map (fun r => setCol r c v)⟩

/-- `config['merge_status']`: the three origin-marker values the classifier
compares against. -/
structure MergeStatus where
  both : String
  left_only : String
  right_only : String
  deriving DecidableEq

/-- `config['result_labels']`: display label per category. -/
structure ResultLabels where
  matched : String
  only_internal : String
  only_provider : String
  mismatched : String
  deriving DecidableEq

/-- One entry of `config['comparison_pairs']`: a base column name plus the
two suffixes naming its internal-side and provider-side copies. -/
structure CompPair where
  base : String
  suffixes : String × String
  deriving DecidableEq

/-- The loaded YAML configuration dictionary (the fields the core reads). -/
structure Config where
  merge_key : String
  merge_suffixes : String × String
  merge_indicator : String
  merge_status : MergeStatus
  comparison_pairs : List CompPair
  result_labels : ResultLabels
  rename_columns : List (String × String)
  deriving DecidableEq

/-- The per-pair equality test of `classifier.py`:
`merged[base+suffixes[0]] == merged[base+suffixes[1]]` on one row. -/
def pairEq (r : Row) (p : CompPair) : Bool :=
  valEq (getV r (p.base ++ p.suffixes.1)) (getV r (p.base ++ p.suffixes.2))

/-- `merged[merge_col] == status['both']` on one row. -/
def bothCond (cfg : Config) (r : Row) : Bool :=
  decide (getV r cfg.merge_indicator = Value.str cfg.merge_status.both)

/-- `match_cond` of `classify_merged_rows`: starts from the both-marker test
and `&=`s the equality of every configured comparison pair. -/
def matchCond (cfg : Config) (r : Row) : Bool :=
  cfg.comparison_pairs.foldl (fun acc p => acc && pairEq r p) (bothCond cfg r)

/-- `merged[merge_col] == status['left_only']` on one row. -/
def onlyInternalCond (cfg : Config) (r : Row) : Bool :=
  decide (getV r cfg.merge_indicator = Value.str cfg.merge_status.left_only)

/-- `merged[merge_col] == status['right_only']` on one row. -/
def onlyProviderCond (cfg : Config) (r : Row) : Bool :=
  decide (getV r cfg.merge_indicator = Value.str cfg.merge_status.right_only)

/-- The tail of `mismatch_cond`: when the list `mismatch_pairs` of per-pair
inequality masks is non-empty (`if mismatch_pairs:`), `&=` its `|=`-fold onto
the both-marker test; otherwise the both-marker test stands alone. -/
def mismatchAux (cfg : Config) (r : Row) : List CompPair → Bool
  | [] => bothCond cfg r
  | p :: ps => bothCond cfg r && ps.foldl (fun acc q => acc || !pairEq r q) (!pairEq r p)

/-- `mismatch_cond` of `classify_merged_rows` on one row. -/
def mismatchCond (cfg : Config) (r : Row) : Bool :=
  mismatchAux cfg r cfg.comparison_pairs

/-- The dictionary of four classified DataFrames returned by
`classify_merged_rows`, and equally the finalized dictionary (same keys). -/
structure Classified where
  matched : DF
  only_internal : DF
  only_provider : DF
  mismatched : DF
  deriving DecidableEq

/-- `classify_merged_rows(merged, config)`: filter-and-copy each category by
its mask and tag it with its configured result label. -/
def classify_merged_rows (merged : DF) (cfg : Config) : Classified :=
  ⟨setColDF (filterDF merged (matchCond cfg)) "result" (Value.str cfg.result_labels.matched),
   setColDF (filterDF merged (onlyInternalCond cfg)) "result" (Value.str cfg.result_labels.only_internal),
   setColDF (filterDF merged (onlyProviderCond cfg)) "result" (Value.str cfg.result_labels.only_provider),
   setColDF (filterDF merged (mismatchCond cfg)) "result" (Value.str cfg.result_labels.mismatched)⟩

/-- Output name of a column of one side of the merge: the join key keeps its
name; any other column also present on the other side gets that side's
configured suffix appended (pandas suffix disambiguation). -/
def suffixedName (key : String) (otherCols : List String) (suf : String) (c : String) : String :=
  if c = key then c else if c ∈ otherCols then c ++ suf else c

/-- The internal-side segment of a merged row: the internal frame's columns
in order under their disambiguated names, with cell values given by `f`. -/
def leftSeg (cfg : Config) (iCols pCols : List String) (f : String → Value) : Row :=
  iCols.map (fun c => (suffixedName cfg.merge_key pCols cfg.merge_suffixes.1 c, f c))

/-- The provider-side segment of a merged row: the provider frame's non-key
columns in order under their disambiguated names, with values given by `f`. -/
def rightSeg (cfg : Config) (iCols pCols : List String) (f : String → Value) : Row :=
  (pCols.filter (fun c => !decide (c = cfg.merge_key))).map
    (fun c => (suffixedName cfg.merge_key iCols cfg.merge_suffixes.2 c, f c))

/-- Column list of the merged frame: left columns (key in place, overlaps
suffixed), then right non-key columns, then the indicator column. -/
def mergedCols (cfg : Config) (dfI dfP : DF) : List String :=
  dfI.cols.map (suffixedName cfg.merge_key dfP.cols cfg.merge_suffixes.1)
  ++ (dfP.cols.filter (fun c => !decide (c = cfg.merge_key))).map
       (suffixedName cfg.merge_key dfI.cols cfg.merge_suffixes.2)
  ++ [cfg.merge_indicator]

/-- Merged row for a key matched on both sides: internal values, provider
values, indicator `both` (the fixed value pandas writes for `indicator=`). -/
def bothRow (cfg : Config) (iCols pCols : List String) (rI rP : Row) : Row :=
  leftSeg cfg iCols pCols (fun c => getV rI c)
  ++ rightSeg cfg iCols pCols (fun c => getV rP c)
  ++ [(cfg.merge_indicator, Value.str "both")]

/-- Merged row for an internal row with no provider match: provider-side
cells are `NaN`, indicator `left_only`. -/
def leftOnlyRow (cfg : Config) (iCols pCols : List String) (rI : Row) : Row :=
  leftSeg cfg iCols pCols (fun c => getV rI c)
  ++ rightSeg cfg iCols pCols (fun _ => Value.null)
  ++ [(cfg.merge_indicator, Value.str "left_only")]

/-- Merged row for a provider row with no internal match: internal-side
cells are `NaN` except the key (which the provider supplies), indicator
`right_only`. -/
def rightOnlyRow (cfg : Config) (iCols pCols : List String) (rP : Row) : Row :=
  leftSeg cfg iCols pCols (fun c => if c = cfg.merge_key then getV rP cfg.merge_key else Value.null)
  ++ rightSeg cfg iCols pCols (fun c => getV rP c)
  ++ [(cfg.merge_indicator, Value.str "right_only")]

/-- Provider rows whose key equals the key of internal row `rI` (the probe
step of the outer join; pandas also groups equal `NaN` keys together, hence
plain value equality here rather than `valEq`). -/
def keyMatchRows (key : String) (rI : Row) (rows : List Row) : List Row :=
  rows.filter (fun rP => decide (getV rP key = getV rI key))

/-- The merged rows contributed by one internal row: one `both` row per
provider match, or a single `left_only` row when no provider key matches
(the probe step of the outer join). -/
def mergeBlock (cfg : Config) (dfI dfP : DF) (rI : Row) : List Row :=
  if (keyMatchRows cfg.merge_key rI dfP.rows).isEmpty then
    [leftOnlyRow cfg dfI.cols dfP.cols rI]
  else
    (keyMatchRows cfg.merge_key rI dfP.rows).map
      (fun rP => bothRow cfg dfI.cols dfP.cols rI rP)

/-- Row list of the full outer join: every internal row paired with each of
its provider matches (or alone with nulls when unmatched), followed by the
unmatched provider rows. -/
def mergeRows (cfg : Config) (dfI dfP : DF) : List Row :=
  ((dfI.rows.map (mergeBlock cfg dfI dfP)).flatten)
  ++ ((dfP.rows.filter (fun rP =>
        !(dfI.rows.any (fun rI => decide (getV rI cfg.merge_key = getV rP cfg.merge_key))))).map
        (fun rP => rightOnlyRow cfg dfI.cols dfP.cols rP))

/-- `merge_dataframes(df_internal, df_provider, config)`: full outer join on
the configured key with suffix disambiguation and an indicator column.  When
the key is absent from either frame's columns pandas raises `KeyError`; the
function logs and re-raises, modelled as `Except.error` (no partial frame). -/
def merge_dataframes (df_internal df_provider : DF) (config : Config) : Except String DF :=
  if config.merge_key ∈ df_internal.cols ∧ config.merge_key ∈ df_provider.cols then
    Except.ok ⟨mergedCols config df_internal df_provider,
               mergeRows config df_internal df_provider⟩
  else
    Except.error ("Merge failed, key not found: " ++ config.merge_key)

/-- `rename_cols.get(c, c)`: the new name of column `c` under the configured
`rename_columns` mapping (unmapped names are unchanged). -/
def applyRename (m : List (String × String)) (c : String) : String :=
  (alookup c m).getD c

/-- The per-table body of `finalize_results`: keep every column except the
merge indicator (`cols = [col for col in df.columns if col != merge_col]`),
make sure `result` is listed, project (`df = df[cols]`, a fresh frame), then
rename the projected frame's column labels per `rename_columns`. -/
def finalizeDF (config : Config) (df : DF) : DF :=
  let cols0 := df.cols.filter (fun c => !decide (c = config.merge_indicator))
  let cols1 := if "result" ∈ cols0 then cols0 else cols0 ++ ["result"]
  ⟨cols1.map (applyRename config.rename_columns),
   df.rows.map (fun r =>
     (cols1.map (fun c => (c, getV r c))).map
       (fun p => (applyRename config.rename_columns p.1, p.2)))⟩

/-- `finalize_results(results, config)`: apply the per-table cleanup to each
of the four category tables, keeping the dictionary keys. -/
def finalize_results (results : Classified) (config : Config) : Classified :=
  ⟨finalizeDF config results.matched,
   finalizeDF config results.only_internal,
   finalizeDF config results.only_provider,
   finalizeDF config results.mismatched⟩

/-- `Reconciler.reconcile(df_internal, df_provider)`: merge, then classify,
then finalize; an exception from the merge propagates unchanged and no later
stage runs (no partial result). -/
def Reconciler.reconcile (config : Config) (df_internal df_provider : DF) : Except String Classified :=
  match merge_dataframes df_internal df_provider config with
  | Except.error e => Except.error e
  | Except.ok merged => Except.ok (finalize_results (classify_merged_rows merged config) config)

/-- The two caller-owned input frames of one reconciliation run. -/
structure PipeState where
  df_internal : DF
  df_provider : DF
  deriving DecidableEq

/-- State-passing rendering of the merge stage: `DataFrame.merge` allocates
a fresh frame and never writes to either operand, so the post-state carries
both inputs through unchanged. -/
def merge_state (config : Config) (s : PipeState) : (Except String DF) × PipeState :=
  (merge_dataframes s.df_internal s.df_provider config, s)

/-- State-passing rendering of the classify stage: each category is built by
`merged[mask].copy()` and the `result` column is assigned on that copy, so
the `merged` frame is returned unmodified. -/
def classify_state (merged : DF) (config : Config) : Classified × DF :=
  (classify_merged_rows merged config, merged)

/-- State-passing rendering of the finalize stage: `df[cols]` produces a
fresh frame and the in-place rename acts on that fresh frame, so the
classified input tables are returned unmodified. -/
def finalize_state (results : Classified) (config : Config) : Classified × Classified :=
  (finalize_results results config, results)

/-- State-passing rendering of `Reconciler.reconcile`, threading the input
frames through every stage and returning their post-run state. -/
def reconcile_state (config : Config) (s : PipeState) : (Except String Classified) × PipeState :=
  match merge_state config s with
  | (Except.error e, s1) => (Except.error e, s1)
  | (Except.ok merged, s1) =>
      (Except.ok (finalize_results (classify_state merged config).1 config), s1)

/-- A representative configuration: join on `transaction_reference`, compare
`amount` and `status`, standard pandas marker values. -/
def cfgEx : Config :=
  { merge_key := "transaction_reference"
    merge_suffixes := ("_internal", "_provider")
    merge_indicator := "origin"
    merge_status := ⟨"both", "left_only", "right_only"⟩
    comparison_pairs := [⟨"amount", ("_internal", "_provider")⟩]
    result_labels := ⟨"MATCHED", "ONLY_INTERNAL", "ONLY_PROVIDER", "MISMATCHED"⟩
    rename_columns := [] }

/-- Merged table with one row per origin marker, for the partition claim. -/
def mergedEx1 : DF :=
  ⟨["transaction_reference", "amount_internal", "amount_provider", "origin"],
   [[("transaction_reference", Value.str "T1"), ("amount_internal", Value.int 10),
     ("amount_provider", Value.int 10), ("origin", Value.str "both")],
    [("transaction_reference", Value.str "T2"), ("amount_internal", Value.int 5),
      ("amount_provider", Value.null), ("origin", Value.str "left_only")],
    [("transaction_reference", Value.str "T3"), ("amount_internal", Value.null),
      ("amount_provider", Value.int 7), ("origin", Value.str "right_only")]]⟩

/-- The configuration of the empty-comparison-pair scenario. -/
def cfgNoPairs : Config := { cfgEx with comparison_pairs := [] }

/-- A merged table holding a single both-origin row. -/
def mergedBothOnly : DF :=
  ⟨["transaction_reference", "origin"],
   [[("transaction_reference", Value.str "T1"), ("origin", Value.str "both")]]⟩

/-- A both-origin merged row whose single comparison pair agrees. -/
def rowEx3 : Row :=
  [("transaction_reference", Value.str "T1"), ("amount_internal", Value.int 10),
   ("amount_provider", Value.int 10), ("origin", Value.str "both")]

/-- Merged table containing just `rowEx3`. -/
def mergedEx3 : DF :=
  ⟨["transaction_reference", "amount_internal", "amount_provider", "origin"], [rowEx3]⟩

/-- Internal frame with the key column present. -/
def dfIEx4 : DF :=
  ⟨["transaction_reference", "amount"],
   [[("transaction_reference", Value.str "T1"), ("amount", Value.int 10)]]⟩

/-- Provider frame lacking the `transaction_reference` key column. -/
def dfPEx4 : DF := ⟨["ref", "amount"], [[("ref", Value.str "T1"), ("amount", Value.int 10)]]⟩

/-- Internal frame with a duplicated key value `T1` on two rows. -/
def dfIdup : DF :=
  ⟨["transaction_reference", "amount"],
   [[("transaction_reference", Value.str "T1"), ("amount", Value.int 10)],
    [("transaction_reference", Value.str "T1"), ("amount", Value.int 12)]]⟩

/-- Provider frame with the key column and no rows. -/
def dfPempty : DF := ⟨["transaction_reference", "amount"], []⟩

/-- Internal frame, one row keyed `T1`, for the join-completeness witness. -/
def dfIEx5 : DF :=
  ⟨["transaction_reference", "amount"],
   [[("transaction_reference", Value.str "T1"), ("amount", Value.int 10)]]⟩

/-- Provider frame, rows keyed `T1` and `T2`, for the join-completeness witness. -/
def dfPEx5 : DF :=
  ⟨["transaction_reference", "amount"],
   [[("transaction_reference", Value.str "T1"), ("amount", Value.int 12)],
    [("transaction_reference", Value.str "T2"), ("amount", Value.int 9)]]⟩

/-- The rows of a successful merge result, `[]` on the error branch (used to
state closed facts about `Except`-valued merge outcomes). -/
def mergedRowsOf (e : Except String DF) : List Row :=
  match e with
  | Except.ok m => m.rows
  | Except.error _ => []

/-- A classified dictionary with one small table per category, for the
finalization witness. -/
def clEx6 : Classified :=
  ⟨⟨["transaction_reference", "amount_internal", "amount_provider", "origin", "result"],
    [[("transaction_reference", Value.str "T1"), ("amount_internal", Value.int 10),
      ("amount_provider", Value.int 10), ("origin", Value.str "both"),
      ("result", Value.str "MATCHED")]]⟩,
   ⟨["transaction_reference", "amount_internal", "amount_provider", "origin", "result"],
    [[("transaction_reference", Value.str "T2"), ("amount_internal", Value.int 5),
      ("amount_provider", Value.null), ("origin", Value.str "left_only"),
      ("result", Value.str "ONLY_INTERNAL")]]⟩,
   ⟨["transaction_reference", "amount_internal", "amount_provider", "origin", "result"],
    [[("transaction_reference", Value.str "T3"), ("amount_internal", Value.null),
      ("amount_provider", Value.int 7), ("origin", Value.str "right_only"),
      ("result", Value.str "ONLY_PROVIDER")]]⟩,
   ⟨["transaction_reference", "amount_internal", "amount_provider", "origin", "result"],
    [[("transaction_reference", Value.str "T4"), ("amount_internal", Value.int 3),
      ("amount_provider", Value.int 4), ("origin", Value.str "both"),
      ("result", Value.str "MISMATCHED")]]⟩⟩

/-- Configuration with a non-trivial rename map, for the finalization witness. -/
def cfgEx6 : Config :=
  { cfgEx with rename_columns := [("amount_internal", "Internal Amount"), ("amount_provider", "Provider Amount")] }

/-- An already-finalized table: no origin column, `result` present, and no
column in the rename map's domain. -/
def dfFinal7 : DF :=
  ⟨["transaction_reference", "Internal Amount", "Provider Amount", "result"],
   [[("transaction_reference", Value.str "T1"), ("Internal Amount", Value.int 10),
     ("Provider Amount", Value.int 10), ("result", Value.str "MATCHED")],
    [("transaction_reference", Value.str "T2"), ("Internal Amount", Value.int 5),
     ("Provider Amount", Value.int 6), ("result", Value.str "MISMATCHED")]]⟩

/-- A both-origin merged row whose comparison columns are both missing. -/
def rowNull10 : Row :=
  [("transaction_reference", Value.str "T1"), ("amount_internal", Value.null),
   ("amount_provider", Value.null), ("origin", Value.str "both")]

/-- Merged table containing just `rowNull10`. -/
def mergedEx10 : DF :=
  ⟨["transaction_reference", "amount_internal", "amount_provider", "origin"], [rowNull10]⟩

/-- Sanity conditions on one classified table entering finalization: it has
a `result` column, the marker column is not named `result`, and the renamed
retained column labels are pairwise distinct (as pandas labels are). -/
def goodFinal (cfg : Config) (df : DF) : Prop :=
  "result" ∈ df.cols ∧ cfg.merge_indicator ≠ "result"
  ∧ ((df.cols.filter (fun c => !decide (c = cfg.merge_indicator))).map
      (applyRename cfg.rename_columns)).Nodup

/-- What finalization does to one category table: same number of rows, the
columns are exactly the non-marker columns renamed, the (renamed) `result`
column is retained, and row `i` of the output holds exactly the cells of row
`i` of the input at every retained column (under its renamed label). -/
def finalizeTableSpec (cfg : Config) (df out : DF) : Prop :=
  out.rows.length = df.rows.length
  ∧ out.cols = (df.cols.filter (fun c => !decide (c = cfg.merge_indicator))).map
      (applyRename cfg.rename_columns)
  ∧ applyRename cfg.rename_columns "result" ∈ out.cols
  ∧ ∀ i : Nat, ∀ c ∈ df.cols, c ≠ cfg.merge_indicator →
      getV (out.rows.getD i []) (applyRename cfg.rename_columns c)
        = getV (df.rows.getD i []) c

/-! ### Helper lemmas: boolean folds of the classifier masks -/

theorem foldl_and_eq {α : Type} (f : α → Bool) :
    ∀ (l : List α) (b : Bool), l.foldl (fun acc x => acc && f x) b = (b && l.all f)
  | [], b => by simp
  | x :: t, b => by
      rw [List.foldl_cons, foldl_and_eq f t (b && f x)]
      simp [Bool.and_assoc]

theorem foldl_or_eq {α : Type} (f : α → Bool) :
    ∀ (l : List α) (b : Bool), l.foldl (fun acc x => acc || f x) b = (b || l.any f)
  | [], b => by simp
  | x :: t, b => by
      rw [List.foldl_cons, foldl_or_eq f t (b || f x)]
      simp [Bool.or_assoc]

theorem matchCond_eq (cfg : Config) (r : Row) :
    matchCond cfg r = (bothCond cfg r && cfg.comparison_pairs.all (pairEq r)) := by
  unfold matchCond
  exact foldl_and_eq (pairEq r) cfg.comparison_pairs (bothCond cfg r)

theorem any_not_eq_not_all {α : Type} (f : α → Bool) :
    ∀ (l : List α), l.any (fun x => !f x) = !l.all f
  | [] => by simp
  | x :: t => by
      rw [List.any_cons, List.all_cons, any_not_eq_not_all f t]
      cases f x <;> simp

theorem mismatchCond_eq (cfg : Config) (r : Row) (h : cfg.comparison_pairs ≠ []) :
    mismatchCond cfg r = (bothCond cfg r && !cfg.comparison_pairs.all (pairEq r)) := by
  unfold mismatchCond
  cases hc : cfg.comparison_pairs with
  | nil => exact absurd hc h
  | cons p ps =>
      show mismatchAux cfg r (p :: ps) = _
      rw [show mismatchAux cfg r (p :: ps)
            = (bothCond cfg r && ps.foldl (fun acc q => acc || !pairEq r q) (!pairEq r p)) from rfl]
      rw [foldl_or_eq (fun q => !pairEq r q) ps (!pairEq r p)]
      rw [show (ps.any fun q => !pairEq r q) = !ps.all (pairEq r) from any_not_eq_not_all (pairEq r) ps]
      rw [List.all_cons, Bool.not_and]

theorem mismatchCond_nil (cfg : Config) (r : Row) (h : cfg.comparison_pairs = []) :
    mismatchCond cfg r = bothCond cfg r := by
  unfold mismatchCond
  rw [h]
  rfl

/-! ### Helper lemmas: association-list lookups -/

theorem alookup_cons {α : Type} (c : String) (p : String × α) (t : List (String × α)) :
    alookup c (p :: t) = if c = p.1 then some p.2 else alookup c t := rfl

theorem alookup_append_some {α : Type} {c : String} {l1 l2 : List (String × α)} {v : α}
    (h : alookup c l1 = some v) : alookup c (l1 ++ l2) = some v := by
  induction l1 with
  | nil => simp [alookup] at h
  | cons p t ih =>
      rw [List.cons_append]
      rw [alookup_cons] at h ⊢
      by_cases hc : c = p.1
      · rw [if_pos hc] at h ⊢
        exact h
      · rw [if_neg hc] at h ⊢
        exact ih h

theorem alookup_append_none {α : Type} {c : String} {l1 l2 : List (String × α)}
    (h : alookup c l1 = none) : alookup c (l1 ++ l2) = alookup c l2 := by
  induction l1 with
  | nil => simp
  | cons p t ih =>
      rw [List.cons_append]
      rw [alookup_cons] at h ⊢
      by_cases hc : c = p.1
      · rw [if_pos hc] at h
        exact absurd h (Option.some_ne_none p.2)
      · rw [if_neg hc] at h ⊢
        exact ih h

theorem alookup_eq_none_of_not_mem_fst {α : Type} {c : String} {l : List (String × α)}
    (h : c ∉ l.map Prod.fst) : alookup c l = none := by
  induction l with
  | nil => rfl
  | cons p t ih =>
      rw [alookup_cons]
      rw [List.map_cons, List.mem_cons] at h
      push_neg at h
      rw [if_neg h.1]
      exact ih h.2

theorem alookup_map_pair {α : Type} (f : String → String) (g : String → α)
    {l : List String} {c : String} (hc : c ∈ l) (hn : (l.map f).Nodup) :
    alookup (f c) (l.map (fun x => (f x, g x))) = some (g c) := by
  induction l with
  | nil => simp at hc
  | cons a t ih =>
      rw [List.map_cons] at hn ⊢
      rcases List.mem_cons.mp hc with hca | hct
      · subst hca
        rw [alookup_cons]
        rw [if_pos rfl]
      · have hfa : f c ≠ f a := by
          intro hEq
          exact (List.nodup_cons.mp hn).1 (hEq ▸ List.mem_map_of_mem f hct)
        rw [alookup_cons]
        rw [if_neg hfa]
        exact ih hct (List.nodup_cons.mp hn).2

theorem assoc_reconstruct :
    ∀ (r : Row) (cols : List String), r.map Prod.fst = cols → cols.Nodup →
      cols.map (fun c => (c, getV r c)) = r
  | [], cols, h, _ => by simp at h; simp [h]
  | (a, v) :: t, cols, h, hn => by
      rw [List.map_cons] at h
      subst h
      rw [List.map_cons]
      have h0 : getV ((a, v) :: t) a = v := by
        unfold getV
        rw [alookup_cons, if_pos rfl]
        rfl
      rw [h0]
      have htail : ∀ c ∈ t.map Prod.fst, getV ((a, v) :: t) c = getV t c := by
        intro c hct
        have hca : c ≠ a := by
          intro hEq
          exact (List.nodup_cons.mp hn).1 (hEq ▸ hct)
        unfold getV
        rw [alookup_cons, if_neg hca]
      rw [List.map_congr_left (fun c hct => by rw [htail c hct])]
      rw [assoc_reconstruct t (t.map Prod.fst) rfl (List.nodup_cons.mp hn).2]

/-! ### Helper lemmas: counting rows -/

theorem countP_const {α : Type} (p : α → Bool) (b : Bool) :
    ∀ (l : List α), (∀ x ∈ l, p x = b) → l.countP p = if b = true then l.length else 0
  | [], _ => by cases b <;> simp
  | x :: t, h => by
      rw [List.countP_cons, countP_const p b t (fun y hy => h y (List.mem_cons_of_mem x hy))]
      rw [h x (List.mem_cons_self x t)]
      cases b <;> simp [Nat.add_comm]

theorem countP_map_congr {α β : Type} (f : α → β) (p : β → Bool) (q : α → Bool) :
    ∀ (l : List α), (∀ x ∈ l, p (f x) = q x) → (l.map f).countP p = l.countP q
  | [], _ => rfl
  | x :: t, h => by
      rw [List.map_cons, List.countP_cons, List.countP_cons]
      rw [countP_map_congr f p q t (fun y hy => h y (List.mem_cons_of_mem x hy))]
      rw [h x (List.mem_cons_self x t)]

theorem countP_congr_mem {α : Type} (p q : α → Bool) :
    ∀ (l : List α), (∀ x ∈ l, p x = q x) → l.countP p = l.countP q
  | [], _ => rfl
  | x :: t, h => by
      rw [List.countP_cons, List.countP_cons]
      rw [countP_congr_mem p q t (fun y hy => h y (List.mem_cons_of_mem x hy))]
      rw [h x (List.mem_cons_self x t)]

theorem countP_filter_and {α : Type} (p q : α → Bool) :
    ∀ (l : List α), (l.filter p).countP q = l.countP (fun x => p x && q x)
  | [] => rfl
  | x :: t => by
      rw [List.countP_cons]
      cases hp : p x with
      | false =>
          rw [List.filter_cons_of_neg (by simp [hp])]
          rw [countP_filter_and p q t]
          simp [hp]
      | true =>
          rw [List.filter_cons_of_pos (by simp [hp])]
          rw [List.countP_cons, countP_filter_and p q t]
          simp [hp]

theorem countP_keyeq_of_nodup {α β : Type} [DecidableEq β] (f : α → β) (v : β) :
    ∀ (l : List α), (l.map f).Nodup →
      l.countP (fun x => decide (f x = v)) = if v ∈ l.map f then 1 else 0
  | [], _ => by simp
  | x :: t, hn => by
      rw [List.map_cons] at hn
      have hn2 := List.nodup_cons.mp hn
      have iht := countP_keyeq_of_nodup f v t hn2.2
      rw [List.countP_cons, iht, List.map_cons]
      by_cases hfx : f x = v
      · have hvt : v ∉ t.map f := fun hmem => hn2.1 (hfx ▸ hmem)
        simp [hfx, hvt]
      · by_cases hvt : v ∈ t.map f
        · simp [hfx, hvt]
        · have hne : v ∉ f x :: t.map f := by
            intro hmem
            rcases List.mem_cons.mp hmem with hh | ht2
            · exact hfx hh.symm
            · exact hvt ht2
          simp [hfx, hvt, hne]

theorem filter_partition_length {α : Type} (p q s : α → Bool) :
    ∀ (l : List α), (∀ x ∈ l, (p x || q x) = s x ∧ (p x && q x) = false) →
      (l.filter p).length + (l.filter q).length = (l.filter s).length
  | [], _ => rfl
  | x :: t, h => by
      have ht := filter_partition_length p q s t (fun y hy => h y (List.mem_cons_of_mem x hy))
      have hx := h x (List.mem_cons_self x t)
      cases hp : p x with
      | true =>
          have hq : q x = false := by
            cases hqv : q x with
            | false => rfl
            | true => rw [hp, hqv] at hx; simp at hx
          have hs : s x = true := by rw [← hx.1, hp]; simp
          rw [List.filter_cons_of_pos (by rw [hp]), List.filter_cons_of_neg (by simp [hq]),
              List.filter_cons_of_pos (by rw [hs])]
          simp only [List.length_cons]
          omega
      | false =>
          cases hq : q x with
          | true =>
              have hs : s x = true := by rw [← hx.1, hp, hq]; simp
              rw [List.filter_cons_of_neg (by simp [hp]), List.filter_cons_of_pos (by rw [hq]),
                  List.filter_cons_of_pos (by rw [hs])]
              simp only [List.length_cons]
              omega
          | false =>
              have hs : s x = false := by
                rw [← hx.1, hp, hq]
                rfl
              rw [List.filter_cons_of_neg (by simp [hp]), List.filter_cons_of_neg (by simp [hq]),
                  List.filter_cons_of_neg (by simp [hs])]
              exact ht

/-! ### Helper lemmas: reading cells of a merged row -/

theorem suffixedName_key (key : String) (o : List String) (s : String) :
    suffixedName key o s key = key := by
  unfold suffixedName
  rw [if_pos rfl]

theorem fst_leftSeg (cfg : Config) (iCols pCols : List String) (f : String → Value) :
    (leftSeg cfg iCols pCols f).map Prod.fst
      = iCols.map (suffixedName cfg.merge_key pCols cfg.merge_suffixes.1) := by
  unfold leftSeg
  rw [List.map_map]
  rfl

theorem fst_rightSeg (cfg : Config) (iCols pCols : List String) (g : String → Value) :
    (rightSeg cfg iCols pCols g).map Prod.fst
      = (pCols.filter (fun c => !decide (c = cfg.merge_key))).map
          (suffixedName cfg.merge_key iCols cfg.merge_suffixes.2) := by
  unfold rightSeg
  rw [List.map_map]
  rfl

theorem getV_segRow_left (cfg : Config) (dfI dfP : DF) (f g : String → Value) (v : Value)
    (hNodup : (mergedCols cfg dfI dfP).Nodup) {c : String} (hc : c ∈ dfI.cols) :
    getV (leftSeg cfg dfI.cols dfP.cols f
          ++ rightSeg cfg dfI.cols dfP.cols g ++ [(cfg.merge_indicator, v)])
      (suffixedName cfg.merge_key dfP.cols cfg.merge_suffixes.1 c) = f c := by
  unfold mergedCols at hNodup
  rw [List.append_assoc] at hNodup
  rw [List.append_assoc]
  have hLn : (dfI.cols.map (suffixedName cfg.merge_key dfP.cols cfg.merge_suffixes.1)).Nodup :=
    hNodup.of_append_left
  have h1 : alookup (suffixedName cfg.merge_key dfP.cols cfg.merge_suffixes.1 c)
      (leftSeg cfg dfI.cols dfP.cols f) = some (f c) := by
    unfold leftSeg
    exact alookup_map_pair (suffixedName cfg.merge_key dfP.cols cfg.merge_suffixes.1) f hc hLn
  unfold getV
  rw [alookup_append_some h1]
  rfl

theorem getV_segRow_key (cfg : Config) (dfI dfP : DF) (f g : String → Value) (v : Value)
    (hNodup : (mergedCols cfg dfI dfP).Nodup) (hk : cfg.merge_key ∈ dfI.cols) :
    getV (leftSeg cfg dfI.cols dfP.cols f
          ++ rightSeg cfg dfI.cols dfP.cols g ++ [(cfg.merge_indicator, v)])
      cfg.merge_key = f cfg.merge_key := by
  have h := getV_segRow_left cfg dfI dfP f g v hNodup hk
  rwa [suffixedName_key] at h

theorem getV_segRow_right (cfg : Config) (dfI dfP : DF) (f g : String → Value) (v : Value)
    (hNodup : (mergedCols cfg dfI dfP).Nodup) {c : String} (hc : c ∈ dfP.cols)
    (hck : c ≠ cfg.merge_key) :
    getV (leftSeg cfg dfI.cols dfP.cols f
          ++ rightSeg cfg dfI.cols dfP.cols g ++ [(cfg.merge_indicator, v)])
      (suffixedName cfg.merge_key dfI.cols cfg.merge_suffixes.2 c) = g c := by
  unfold mergedCols at hNodup
  rw [List.append_assoc] at hNodup
  rw [List.append_assoc]
  have hcf : c ∈ dfP.cols.filter (fun c => !decide (c = cfg.merge_key)) :=
    List.mem_filter.mpr ⟨hc, by simp [hck]⟩
  have hmemR : suffixedName cfg.merge_key dfI.cols cfg.merge_suffixes.2 c
      ∈ (dfP.cols.filter (fun c => !decide (c = cfg.merge_key))).map
          (suffixedName cfg.merge_key dfI.cols cfg.merge_suffixes.2) :=
    List.mem_map_of_mem _ hcf
  have hdisj := List.disjoint_of_nodup_append hNodup
  have hnotL : suffixedName cfg.merge_key dfI.cols cfg.merge_suffixes.2 c
      ∉ dfI.cols.map (suffixedName cfg.merge_key dfP.cols cfg.merge_suffixes.1) := by
    intro hmem
    exact hdisj hmem (List.mem_append_left _ hmemR)
  have hRn : ((dfP.cols.filter (fun c => !decide (c = cfg.merge_key))).map
      (suffixedName cfg.merge_key dfI.cols cfg.merge_suffixes.2)).Nodup :=
    (hNodup.of_append_right).of_append_left
  have h0 : alookup (suffixedName cfg.merge_key dfI.cols cfg.merge_suffixes.2 c)
      (leftSeg cfg dfI.cols dfP.cols f) = none := by
    apply alookup_eq_none_of_not_mem_fst
    rw [fst_leftSeg]
    exact hnotL
  have h1 : alookup (suffixedName cfg.merge_key dfI.cols cfg.merge_suffixes.2 c)
      (rightSeg cfg dfI.cols dfP.cols g) = some (g c) := by
    unfold rightSeg
    exact alookup_map_pair (suffixedName cfg.merge_key dfI.cols cfg.merge_suffixes.2) g hcf hRn
  unfold getV
  rw [alookup_append_none h0, alookup_append_some h1]
  rfl

theorem getV_segRow_ind (cfg : Config) (dfI dfP : DF) (f g : String → Value) (v : Value)
    (hNodup : (mergedCols cfg dfI dfP).Nodup) :
    getV (leftSeg cfg dfI.cols dfP.cols f
          ++ rightSeg cfg dfI.cols dfP.cols g ++ [(cfg.merge_indicator, v)])
      cfg.merge_indicator = v := by
  unfold mergedCols at hNodup
  rw [List.append_assoc] at hNodup
  rw [List.append_assoc]
  have hdisj := List.disjoint_of_nodup_append hNodup
  have hmemInd : cfg.merge_indicator
      ∈ (dfP.cols.filter (fun c => !decide (c = cfg.merge_key))).map
          (suffixedName cfg.merge_key dfI.cols cfg.merge_suffixes.2) ++ [cfg.merge_indicator] :=
    List.mem_append_right _ (List.mem_singleton.mpr rfl)
  have hnotL : cfg.merge_indicator
      ∉ dfI.cols.map (suffixedName cfg.merge_key dfP.cols cfg.merge_suffixes.1) := by
    intro hmem
    exact hdisj hmem hmemInd
  have hdisj2 := List.disjoint_of_nodup_append hNodup.of_append_right
  have hnotR : cfg.merge_indicator
      ∉ (dfP.cols.filter (fun c => !decide (c = cfg.merge_key))).map
          (suffixedName cfg.merge_key dfI.cols cfg.merge_suffixes.2) := by
    intro hmem
    exact hdisj2 hmem (List.mem_singleton.mpr rfl)
  have h0 : alookup cfg.merge_indicator (leftSeg cfg dfI.cols dfP.cols f) = none := by
    apply alookup_eq_none_of_not_mem_fst
    rw [fst_leftSeg]
    exact hnotL
  have h1 : alookup cfg.merge_indicator (rightSeg cfg dfI.cols dfP.cols g) = none := by
    apply alookup_eq_none_of_not_mem_fst
    rw [fst_rightSeg]
    exact hnotR
  unfold getV
  rw [alookup_append_none h0, alookup_append_none h1, alookup_cons, if_pos rfl]
  rfl

/-! ### Helper lemmas: key, indicator and missing-side cells of merged rows -/

theorem getV_bothRow_key (cfg : Config) (dfI dfP : DF) (rI rP : Row)
    (hNodup : (mergedCols cfg dfI dfP).Nodup) (hk : cfg.merge_key ∈ dfI.cols) :
    getV (bothRow cfg dfI.cols dfP.cols rI rP) cfg.merge_key = getV rI cfg.merge_key := by
  unfold bothRow
  exact getV_segRow_key cfg dfI dfP (fun c => getV rI c) (fun c => getV rP c)
    (Value.str "both") hNodup hk

theorem getV_leftOnlyRow_key (cfg : Config) (dfI dfP : DF) (rI : Row)
    (hNodup : (mergedCols cfg dfI dfP).Nodup) (hk : cfg.merge_key ∈ dfI.cols) :
    getV (leftOnlyRow cfg dfI.cols dfP.cols rI) cfg.merge_key = getV rI cfg.merge_key := by
  unfold leftOnlyRow
  exact getV_segRow_key cfg dfI dfP (fun c => getV rI c) (fun _ => Value.null)
    (Value.str "left_only") hNodup hk

theorem getV_rightOnlyRow_key (cfg : Config) (dfI dfP : DF) (rP : Row)
    (hNodup : (mergedCols cfg dfI dfP).Nodup) (hk : cfg.merge_key ∈ dfI.cols) :
    getV (rightOnlyRow cfg dfI.cols dfP.cols rP) cfg.merge_key = getV rP cfg.merge_key := by
  unfold rightOnlyRow
  rw [getV_segRow_key cfg dfI dfP
    (fun c => if c = cfg.merge_key then getV rP cfg.merge_key else Value.null)
    (fun c => getV rP c) (Value.str "right_only") hNodup hk]
  rw [if_pos rfl]

theorem getV_bothRow_ind (cfg : Config) (dfI dfP : DF) (rI rP : Row)
    (hNodup : (mergedCols cfg dfI dfP).Nodup) :
    getV (bothRow cfg dfI.cols dfP.cols rI rP) cfg.merge_indicator = Value.str "both" := by
  unfold bothRow
  exact getV_segRow_ind cfg dfI dfP (fun c => getV rI c) (fun c => getV rP c)
    (Value.str "both") hNodup

theorem getV_leftOnlyRow_ind (cfg : Config) (dfI dfP : DF) (rI : Row)
    (hNodup : (mergedCols cfg dfI dfP).Nodup) :
    getV (leftOnlyRow cfg dfI.cols dfP.cols rI) cfg.merge_indicator = Value.str "left_only" := by
  unfold leftOnlyRow
  exact getV_segRow_ind cfg dfI dfP (fun c => getV rI c) (fun _ => Value.null)
    (Value.str "left_only") hNodup

theorem getV_rightOnlyRow_ind (cfg : Config) (dfI dfP : DF) (rP : Row)
    (hNodup : (mergedCols cfg dfI dfP).Nodup) :
    getV (rightOnlyRow cfg dfI.cols dfP.cols rP) cfg.merge_indicator = Value.str "right_only" := by
  unfold rightOnlyRow
  exact getV_segRow_ind cfg dfI dfP
    (fun c => if c = cfg.merge_key then getV rP cfg.merge_key else Value.null)
    (fun c => getV rP c) (Value.str "right_only") hNodup

theorem getV_leftOnlyRow_rightCol (cfg : Config) (dfI dfP : DF) (rI : Row)
    (hNodup : (mergedCols cfg dfI dfP).Nodup) {c : String} (hc : c ∈ dfP.cols)
    (hck : c ≠ cfg.merge_key) :
    getV (leftOnlyRow cfg dfI.cols dfP.cols rI)
      (suffixedName cfg.merge_key dfI.cols cfg.merge_suffixes.2 c) = Value.null := by
  unfold leftOnlyRow
  exact getV_segRow_right cfg dfI dfP (fun c => getV rI c) (fun _ => Value.null)
    (Value.str "left_only") hNodup hc hck

theorem getV_rightOnlyRow_leftCol (cfg : Config) (dfI dfP : DF) (rP : Row)
    (hNodup : (mergedCols cfg dfI dfP).Nodup) {c : String} (hc : c ∈ dfI.cols)
    (hck : c ≠ cfg.merge_key) :
    getV (rightOnlyRow cfg dfI.cols dfP.cols rP)
      (suffixedName cfg.merge_key dfP.cols cfg.merge_suffixes.1 c) = Value.null := by
  unfold rightOnlyRow
  rw [getV_segRow_left cfg dfI dfP
    (fun c => if c = cfg.merge_key then getV rP cfg.merge_key else Value.null)
    (fun c => getV rP c) (Value.str "right_only") hNodup hc]
  rw [if_neg hck]

/-! ### Helper lemmas: the outer-join blocks -/

theorem getV_mem_mergeBlock_key (cfg : Config) (dfI dfP : DF) (rI : Row) {m : Row}
    (hNodup : (mergedCols cfg dfI dfP).Nodup) (hk : cfg.merge_key ∈ dfI.cols)
    (hm : m ∈ mergeBlock cfg dfI dfP rI) :
    getV m cfg.merge_key = getV rI cfg.merge_key := by
  unfold mergeBlock at hm
  by_cases he : (keyMatchRows cfg.merge_key rI dfP.rows).isEmpty
  · rw [if_pos he] at hm
    rw [List.mem_singleton.mp hm]
    exact getV_leftOnlyRow_key cfg dfI dfP rI hNodup hk
  · rw [if_neg he] at hm
    rcases List.mem_map.mp hm with ⟨rP, _, rfl⟩
    exact getV_bothRow_key cfg dfI dfP rI rP hNodup hk

theorem keyMatchRows_length (key : String) (rI : Row) (rows : List Row)
    (hNP : (rows.map (fun r => getV r key)).Nodup) :
    (keyMatchRows key rI rows).length
      = if getV rI key ∈ rows.map (fun r => getV r key) then 1 else 0 := by
  unfold keyMatchRows
  rw [← List.countP_eq_length_filter]
  exact countP_keyeq_of_nodup (fun r => getV r key) (getV rI key) rows hNP

theorem mergeBlock_length (cfg : Config) (dfI dfP : DF) (rI : Row)
    (hNP : (dfP.rows.map (fun r => getV r cfg.merge_key)).Nodup) :
    (mergeBlock cfg dfI dfP rI).length = 1 := by
  unfold mergeBlock
  by_cases he : (keyMatchRows cfg.merge_key rI dfP.rows).isEmpty
  · rw [if_pos he]
    rfl
  · rw [if_neg he]
    rw [List.length_map]
    have hne : keyMatchRows cfg.merge_key rI dfP.rows ≠ [] := by
      intro h0
      rw [h0] at he
      exact he rfl
    have hlen := keyMatchRows_length cfg.merge_key rI dfP.rows hNP
    by_cases hmem : getV rI cfg.merge_key ∈ dfP.rows.map (fun r => getV r cfg.merge_key)
    · rw [hlen, if_pos hmem]
    · exact absurd (List.length_eq_zero.mp (by rw [hlen, if_neg hmem])) hne

theorem countP_mergeBlock (cfg : Config) (dfI dfP : DF) (rI : Row) (v : Value)
    (hNodup : (mergedCols cfg dfI dfP).Nodup) (hk : cfg.merge_key ∈ dfI.cols)
    (hNP : (dfP.rows.map (fun r => getV r cfg.merge_key)).Nodup) :
    (mergeBlock cfg dfI dfP rI).countP (fun m => decide (getV m cfg.merge_key = v))
      = if getV rI cfg.merge_key = v then 1 else 0 := by
  have hconst : ∀ m ∈ mergeBlock cfg dfI dfP rI,
      (fun m => decide (getV m cfg.merge_key = v)) m = decide (getV rI cfg.merge_key = v) := by
    intro m hm
    show decide (getV m cfg.merge_key = v) = decide (getV rI cfg.merge_key = v)
    rw [getV_mem_mergeBlock_key cfg dfI dfP rI hNodup hk hm]
  rw [countP_const _ _ _ hconst, mergeBlock_length cfg dfI dfP rI hNP]
  by_cases hv : getV rI cfg.merge_key = v
  · rw [if_pos hv, if_pos (by simp [hv])]
  · rw [if_neg hv, if_neg (by simp [hv])]

/-! ### Helper lemmas: counting merged rows by key -/

theorem countP_leftPart (cfg : Config) (dfI dfP : DF) (v : Value)
    (hNodup : (mergedCols cfg dfI dfP).Nodup) (hk : cfg.merge_key ∈ dfI.cols)
    (hNP : (dfP.rows.map (fun r => getV r cfg.merge_key)).Nodup) :
    ∀ (l : List Row), ((l.map (fun r => getV r cfg.merge_key)).Nodup) →
      ((l.map (mergeBlock cfg dfI dfP)).flatten).countP
          (fun m => decide (getV m cfg.merge_key = v))
        = if v ∈ l.map (fun r => getV r cfg.merge_key) then 1 else 0
  | [], _ => by simp
  | rI :: t, hN => by
      rw [List.map_cons, List.flatten_cons, List.countP_append]
      rw [List.map_cons] at hN
      have hN2 := List.nodup_cons.mp hN
      rw [countP_leftPart cfg dfI dfP v hNodup hk hNP t hN2.2]
      rw [countP_mergeBlock cfg dfI dfP rI v hNodup hk hNP]
      rw [List.map_cons]
      by_cases hv : getV rI cfg.merge_key = v
      · have hvt : v ∉ t.map (fun r => getV r cfg.merge_key) := fun hmem => hN2.1 (hv ▸ hmem)
        rw [if_pos hv, if_neg hvt, if_pos (hv ▸ List.mem_cons_self (getV rI cfg.merge_key) (t.map (fun r => getV r cfg.merge_key)))]
      · rw [if_neg hv]
        by_cases hvt : v ∈ t.map (fun r => getV r cfg.merge_key)
        · rw [if_pos hvt, if_pos (List.mem_cons_of_mem _ hvt)]
        · rw [if_neg hvt, if_neg (by
            intro hmem
            rcases List.mem_cons.mp hmem with hh | ht2
            · exact hv hh.symm
            · exact hvt ht2)]

theorem countP_rightPart (cfg : Config) (dfI dfP : DF) (v : Value)
    (hNodup : (mergedCols cfg dfI dfP).Nodup) (hk : cfg.merge_key ∈ dfI.cols)
    (hNP : (dfP.rows.map (fun r => getV r cfg.merge_key)).Nodup) :
    ((dfP.rows.filter (fun rP =>
        !(dfI.rows.any (fun rI => decide (getV rI cfg.merge_key = getV rP cfg.merge_key))))).map
      (fun rP => rightOnlyRow cfg dfI.cols dfP.cols rP)).countP
        (fun m => decide (getV m cfg.merge_key = v))
      = if v ∈ dfI.rows.map (fun r => getV r cfg.merge_key) then 0
        else if v ∈ dfP.rows.map (fun r => getV r cfg.merge_key) then 1 else 0 := by
  have step1 := countP_map_congr (fun rP => rightOnlyRow cfg dfI.cols dfP.cols rP)
    (fun m => decide (getV m cfg.merge_key = v))
    (fun rP => decide (getV rP cfg.merge_key = v))
    (dfP.rows.filter (fun rP =>
        !(dfI.rows.any (fun rI => decide (getV rI cfg.merge_key = getV rP cfg.merge_key)))))
    (by
      intro rP _
      show decide (getV (rightOnlyRow cfg dfI.cols dfP.cols rP) cfg.merge_key = v) = _
      rw [getV_rightOnlyRow_key cfg dfI dfP rP hNodup hk])
  rw [step1, countP_filter_and]
  by_cases hvI : v ∈ dfI.rows.map (fun r => getV r cfg.merge_key)
  · rw [if_pos hvI]
    apply List.countP_eq_zero.mpr
    intro rP _ hp
    have hp2 : (!(dfI.rows.any (fun rI => decide (getV rI cfg.merge_key = getV rP cfg.merge_key)))) = true
        ∧ decide (getV rP cfg.merge_key = v) = true := by
      constructor
      · exact (Bool.and_elim_left hp)
      · exact (Bool.and_elim_right hp)
    have hkv : getV rP cfg.merge_key = v := of_decide_eq_true hp2.2
    rcases List.mem_map.mp hvI with ⟨rI, hrI, hrIv⟩
    have hany : dfI.rows.any (fun rI => decide (getV rI cfg.merge_key = getV rP cfg.merge_key)) = true :=
      List.any_eq_true.mpr ⟨rI, hrI, by simp [hrIv, hkv]⟩
    rw [hany] at hp2
    simp at hp2
  · rw [if_neg hvI]
    rw [countP_congr_mem _ (fun rP => decide (getV rP cfg.merge_key = v)) dfP.rows (by
        intro rP _
        show (!(dfI.rows.any (fun rI => decide (getV rI cfg.merge_key = getV rP cfg.merge_key)))
              && decide (getV rP cfg.merge_key = v)) = decide (getV rP cfg.merge_key = v)
        by_cases hq : getV rP cfg.merge_key = v
        · have hany : dfI.rows.any
              (fun rI => decide (getV rI cfg.merge_key = getV rP cfg.merge_key)) = false := by
            cases hA : dfI.rows.any
                (fun rI => decide (getV rI cfg.merge_key = getV rP cfg.merge_key)) with
            | false => rfl
            | true =>
                rcases List.any_eq_true.mp hA with ⟨rI, hrI, hd⟩
                have : getV rI cfg.merge_key = v := by
                  rw [of_decide_eq_true hd, hq]
                exact absurd (List.mem_map.mpr ⟨rI, hrI, this⟩) hvI
          rw [hany]
          simp
        · simp [hq])]
    exact countP_keyeq_of_nodup (fun r => getV r cfg.merge_key) v dfP.rows hNP

theorem mergeRows_countP (cfg : Config) (dfI dfP : DF) (v : Value)
    (hNodup : (mergedCols cfg dfI dfP).Nodup) (hk : cfg.merge_key ∈ dfI.cols)
    (hNI : (dfI.rows.map (fun r => getV r cfg.merge_key)).Nodup)
    (hNP : (dfP.rows.map (fun r => getV r cfg.merge_key)).Nodup)
    (hv : v ∈ dfI.rows.map (fun r => getV r cfg.merge_key)
        ∨ v ∈ dfP.rows.map (fun r => getV r cfg.merge_key)) :
    (mergeRows cfg dfI dfP).countP (fun m => decide (getV m cfg.merge_key = v)) = 1 := by
  unfold mergeRows
  rw [List.countP_append]
  rw [countP_leftPart cfg dfI dfP v hNodup hk hNP dfI.rows hNI]
  rw [countP_rightPart cfg dfI dfP v hNodup hk hNP]
  by_cases hvI : v ∈ dfI.rows.map (fun r => getV r cfg.merge_key)
  · rw [if_pos hvI, if_pos hvI]
  · have hvP : v ∈ dfP.rows.map (fun r => getV r cfg.merge_key) := hv.resolve_left hvI
    rw [if_neg hvI, if_neg hvI, if_pos hvP]

theorem bothRow_mem_mergeRows (cfg : Config) (dfI dfP : DF) (rI rP : Row)
    (hrI : rI ∈ dfI.rows) (hrP : rP ∈ dfP.rows)
    (hkeq : getV rI cfg.merge_key = getV rP cfg.merge_key) :
    bothRow cfg dfI.cols dfP.cols rI rP ∈ mergeRows cfg dfI dfP := by
  have hmatch : rP ∈ keyMatchRows cfg.merge_key rI dfP.rows := by
    unfold keyMatchRows
    exact List.mem_filter.mpr ⟨hrP, by simp [hkeq]⟩
  have hne : keyMatchRows cfg.merge_key rI dfP.rows ≠ [] := List.ne_nil_of_mem hmatch
  have hblock : bothRow cfg dfI.cols dfP.cols rI rP ∈ mergeBlock cfg dfI dfP rI := by
    unfold mergeBlock
    rw [if_neg (by simp [List.isEmpty_iff, hne])]
    exact List.mem_map_of_mem _ hmatch
  unfold mergeRows
  apply List.mem_append_left
  exact List.mem_flatten.mpr ⟨mergeBlock cfg dfI dfP rI, List.mem_map_of_mem _ hrI, hblock⟩

theorem mem_mergeRows_cases (cfg : Config) (dfI dfP : DF) {m : Row}
    (hm : m ∈ mergeRows cfg dfI dfP) :
    (∃ rI, rI ∈ dfI.rows ∧ m = leftOnlyRow cfg dfI.cols dfP.cols rI)
    ∨ (∃ rI rP, rI ∈ dfI.rows ∧ rP ∈ dfP.rows ∧ m = bothRow cfg dfI.cols dfP.cols rI rP)
    ∨ (∃ rP, rP ∈ dfP.rows ∧ m = rightOnlyRow cfg dfI.cols dfP.cols rP) := by
  unfold mergeRows at hm
  rcases List.mem_append.mp hm with hL | hR
  · rcases List.mem_flatten.mp hL with ⟨bl, hbl, hmbl⟩
    rcases List.mem_map.mp hbl with ⟨rI, hrI, rfl⟩
    unfold mergeBlock at hmbl
    by_cases he : (keyMatchRows cfg.merge_key rI dfP.rows).isEmpty
    · rw [if_pos he] at hmbl
      exact Or.inl ⟨rI, hrI, List.mem_singleton.mp hmbl⟩
    · rw [if_neg he] at hmbl
      rcases List.mem_map.mp hmbl with ⟨rP, hrPm, rfl⟩
      unfold keyMatchRows at hrPm
      exact Or.inr (Or.inl ⟨rI, rP, hrI, (List.mem_filter.mp hrPm).1, rfl⟩)
  · rcases List.mem_map.mp hR with ⟨rP, hrPf, rfl⟩
    exact Or.inr (Or.inr ⟨rP, (List.mem_filter.mp hrPf).1, rfl⟩)

/-! ### Helper lemmas: finalization -/

theorem getV_finalizeRow (m : List (String × String)) (cols : List String) (r : Row)
    {c : String} (hc : c ∈ cols) (hnd : (cols.map (applyRename m)).Nodup) :
    getV ((cols.map (fun c => (c, getV r c))).map (fun p => (applyRename m p.1, p.2)))
      (applyRename m c) = getV r c := by
  rw [List.map_map]
  have hcomp : ((fun p : String × Value => (applyRename m p.1, p.2))
      ∘ (fun c => (c, getV r c))) = fun c => (applyRename m c, getV r c) := rfl
  rw [hcomp]
  have hlook := alookup_map_pair (applyRename m) (fun c => getV r c) hc hnd
  show (alookup (applyRename m c)
      (cols.map (fun c => (applyRename m c, getV r c)))).getD Value.null = getV r c
  rw [hlook]
  rfl

theorem getD_map_getV (F : Row → Row) (n c : String)
    (hF : ∀ r, getV (F r) n = getV r c) :
    ∀ (rows : List Row) (i : Nat),
      getV ((rows.map F).getD i []) n = getV (rows.getD i []) c
  | [], i => rfl
  | r :: t, 0 => by
      rw [List.map_cons, List.getD_cons_zero, List.getD_cons_zero]
      exact hF r
  | r :: t, (i + 1) => by
      rw [List.map_cons, List.getD_cons_succ, List.getD_cons_succ]
      exact getD_map_getV F n c hF t i

theorem finalizeDF_spec (cfg : Config) (df : DF) (h : goodFinal cfg df) :
    finalizeTableSpec cfg df (finalizeDF cfg df) := by
  obtain ⟨hres, hind, hnd⟩ := h
  have hresne : "result" ≠ cfg.merge_indicator := fun hEq => hind hEq.symm
  have hres0 : "result" ∈ df.cols.filter (fun c => !decide (c = cfg.merge_indicator)) :=
    List.mem_filter.mpr ⟨hres, by simp [hresne]⟩
  have hdf : finalizeDF cfg df =
      ⟨(df.cols.filter (fun c => !decide (c = cfg.merge_indicator))).map
          (applyRename cfg.rename_columns),
       df.rows.map (fun r =>
         ((df.cols.filter (fun c => !decide (c = cfg.merge_indicator))).map
             (fun c => (c, getV r c))).map
           (fun p => (applyRename cfg.rename_columns p.1, p.2)))⟩ := by
    simp only [finalizeDF]
    rw [if_pos hres0]
  rw [hdf]
  unfold finalizeTableSpec
  refine ⟨List.length_map _ _, rfl, List.mem_map_of_mem _ hres0, ?_⟩
  intro i c hc hcne
  have hc0 : c ∈ df.cols.filter (fun c => !decide (c = cfg.merge_indicator)) :=
    List.mem_filter.mpr ⟨hc, by simp [hcne]⟩
  exact getD_map_getV _ _ _
    (fun r => getV_finalizeRow cfg.rename_columns _ r hc0 hnd) df.rows i

/-! ### Claims -/

/-- C2: the spec states that with an empty comparison-pair list `mismatched`
is empty while every both-origin row is matched.  Evaluating
`classify_merged_rows` on a one-row both-origin merged table with
`comparison_pairs = []` shows the code instead returns that row in
`mismatched` as well as in `matched`: the `if mismatch_pairs:` guard skips
the `&=` step and leaves `mismatch_cond` as the bare both-marker test. -/
theorem claim_C2_code_eval :
    (classify_merged_rows mergedBothOnly cfgNoPairs).matched.rows.length = 1
    ∧ (classify_merged_rows mergedBothOnly cfgNoPairs).mismatched.rows.length = 1
    ∧ (classify_merged_rows mergedBothOnly cfgNoPairs).mismatched.rows ≠ [] := by
  decide

/-- C3: a merged row is selected into the matched output exactly when its
origin marker equals the configured both value and, for every configured
comparison pair, the left-suffixed and right-suffixed cell values are equal
under pandas value equality on the native type. -/
theorem claim_C3 (cfg : Config) (merged : DF) :
    (∀ r ∈ merged.rows, matchCond cfg r = true →
        setCol r "result" (Value.str cfg.result_labels.matched)
          ∈ (classify_merged_rows merged cfg).matched.rows)
    ∧ (∀ m ∈ (classify_merged_rows merged cfg).matched.rows,
        ∃ r, r ∈ merged.rows ∧ matchCond cfg r = true
          ∧ m = setCol r "result" (Value.str cfg.result_labels.matched))
    ∧ (∀ r : Row, matchCond cfg r = true ↔
        (getV r cfg.merge_indicator = Value.str cfg.merge_status.both
         ∧ ∀ p ∈ cfg.comparison_pairs,
             valEq (getV r (p.base ++ p.suffixes.1))
               (getV r (p.base ++ p.suffixes.2)) = true)) := by
  refine ⟨?_, ?_, ?_⟩
  · intro r hr hmc
    show setCol r "result" (Value.str cfg.result_labels.matched)
      ∈ (merged.rows.filter (matchCond cfg)).map
          (fun r => setCol r "result" (Value.str cfg.result_labels.matched))
    exact List.mem_map_of_mem _ (List.mem_filter.mpr ⟨hr, hmc⟩)
  · intro m hm
    rcases List.mem_map.mp hm with ⟨r, hrf, rfl⟩
    have hrf2 := List.mem_filter.mp hrf
    exact ⟨r, hrf2.1, hrf2.2, rfl⟩
  · intro r
    rw [matchCond_eq]
    constructor
    · intro h
      simp only [Bool.and_eq_true] at h
      refine ⟨of_decide_eq_true h.1, ?_⟩
      intro p hp
      exact List.all_eq_true.mp h.2 p hp
    · intro h
      simp only [Bool.and_eq_true]
      exact ⟨decide_eq_true h.1, List.all_eq_true.mpr (fun p hp => h.2 p hp)⟩

/-- Witness for C3 at a concrete matching row. -/
theorem claim_C3_witness :
    setCol rowEx3 "result" (Value.str cfgEx.result_labels.matched)
      ∈ (classify_merged_rows mergedEx3 cfgEx).matched.rows :=
  (claim_C3 cfgEx mergedEx3).1 rowEx3 (by decide) (by decide)

/-- C4: when the configured merge key is absent from either input's column
set, `merge_dataframes` fails with the descriptive key-not-found error, no
merged frame is produced, and `Reconciler.reconcile` surfaces the very same
error unchanged (no partial result). -/
theorem claim_C4 (cfg : Config) (dfI dfP : DF)
    (h : cfg.merge_key ∉ dfI.cols ∨ cfg.merge_key ∉ dfP.cols) :
    merge_dataframes dfI dfP cfg
        = Except.error ("Merge failed, key not found: " ++ cfg.merge_key)
    ∧ Reconciler.reconcile cfg dfI dfP
        = Except.error ("Merge failed, key not found: " ++ cfg.merge_key) := by
  have hcond : ¬(cfg.merge_key ∈ dfI.cols ∧ cfg.merge_key ∈ dfP.cols) := by
    rcases h with h | h
    · exact fun hc => h hc.1
    · exact fun hc => h hc.2
  have hm : merge_dataframes dfI dfP cfg
      = Except.error ("Merge failed, key not found: " ++ cfg.merge_key) := by
    unfold merge_dataframes
    rw [if_neg hcond]
  refine ⟨hm, ?_⟩
  unfold Reconciler.reconcile
  rw [hm]

/-- Witness for C4: provider frame lacking `transaction_reference`. -/
theorem claim_C4_witness :
    merge_dataframes dfIEx4 dfPEx4 cfgEx
        = Except.error ("Merge failed, key not found: " ++ cfgEx.merge_key)
    ∧ Reconciler.reconcile cfgEx dfIEx4 dfPEx4
        = Except.error ("Merge failed, key not found: " ++ cfgEx.merge_key) :=
  claim_C4 cfgEx dfIEx4 dfPEx4 (by decide)

/-- C9: a reconciliation run leaves both caller-owned input frames exactly
as they were: the merge allocates a fresh frame, the classifier copies each
mask-selected subset before tagging it, and the finalizer projects fresh
frames, so the state-passing pipeline's post-state equals its pre-state on
both the success and the error path. -/
theorem claim_C9 (config : Config) (s : PipeState) : (reconcile_state config s).2 = s := by
  unfold reconcile_state merge_state
  cases merge_dataframes s.df_internal s.df_provider config <;> rfl

/-- C10: a both-origin merged row with a configured comparison pair missing
on both sides fails the matched mask and satisfies the mismatched mask —
pandas equality of two missing values is false, the inequality true — so
the classifier places the row in mismatched, not in matched. -/
theorem claim_C10 (cfg : Config) (merged : DF) (r : Row) (p : CompPair)
    (hr : r ∈ merged.rows)
    (hb : getV r cfg.merge_indicator = Value.str cfg.merge_status.both)
    (hp : p ∈ cfg.comparison_pairs)
    (hl : getV r (p.base ++ p.suffixes.1) = Value.null)
    (hr2 : getV r (p.base ++ p.suffixes.2) = Value.null) :
    matchCond cfg r = false
    ∧ mismatchCond cfg r = true
    ∧ setCol r "result" (Value.str cfg.result_labels.mismatched)
        ∈ (classify_merged_rows merged cfg).mismatched.rows
    ∧ valEq Value.null Value.null = false := by
  have hpe : pairEq r p = false := by
    unfold pairEq
    rw [hl, hr2]
    rfl
  have hall : cfg.comparison_pairs.all (pairEq r) = false := by
    cases hA : cfg.comparison_pairs.all (pairEq r) with
    | false => rfl
    | true =>
        have h1 := List.all_eq_true.mp hA p hp
        rw [hpe] at h1
        exact absurd h1 Bool.false_ne_true
  have hbc : bothCond cfg r = true := decide_eq_true hb
  have hne : cfg.comparison_pairs ≠ [] := List.ne_nil_of_mem hp
  have hmc : matchCond cfg r = false := by
    rw [matchCond_eq, hall]
    exact Bool.and_false _
  have hmm : mismatchCond cfg r = true := by
    rw [mismatchCond_eq cfg r hne, hbc, hall]
    rfl
  refine ⟨hmc, hmm, ?_, rfl⟩
  show setCol r "result" (Value.str cfg.result_labels.mismatched)
    ∈ (merged.rows.filter (mismatchCond cfg)).map
        (fun r => setCol r "result" (Value.str cfg.result_labels.mismatched))
  exact List.mem_map_of_mem _ (List.mem_filter.mpr ⟨hr, hmm⟩)

/-- Witness for C10 at a concrete both-null row. -/
theorem claim_C10_witness :
    matchCond cfgEx rowNull10 = false
    ∧ mismatchCond cfgEx rowNull10 = true
    ∧ setCol rowNull10 "result" (Value.str cfgEx.result_labels.mismatched)
        ∈ (classify_merged_rows mergedEx10 cfgEx).mismatched.rows
    ∧ valEq Value.null Value.null = false :=
  claim_C10 cfgEx mergedEx10 rowNull10 ⟨"amount", ("_internal", "_provider")⟩
    (by decide) (by decide) (by decide) (by decide) (by decide)

/-- C7: finalizing an already-finalized table — origin-marker column absent,
`result` column present, configured renames already applied so no retained
column is renamed further — is a no-op: the output table equals the input. -/
theorem claim_C7 (cfg : Config) (df : DF)
    (h1 : cfg.merge_indicator ∉ df.cols)
    (h2 : "result" ∈ df.cols)
    (h3 : ∀ c ∈ df.cols, applyRename cfg.rename_columns c = c)
    (h4 : df.cols.Nodup)
    (h5 : ∀ r ∈ df.rows, r.map Prod.fst = df.cols) :
    finalizeDF cfg df = df := by
  obtain ⟨cols, rows⟩ := df
  have hfilter : cols.filter (fun c => !decide (c = cfg.merge_indicator)) = cols := by
    apply List.filter_eq_self.mpr
    intro c hc
    simp only [Bool.not_eq_true', decide_eq_false_iff_not]
    exact fun hEq => h1 (hEq ▸ hc)
  simp only [finalizeDF]
  rw [hfilter, if_pos h2]
  have hcolsmap : cols.map (applyRename cfg.rename_columns) = cols := by
    rw [List.map_congr_left h3]
    exact List.map_id' cols
  have hrows : ∀ r ∈ rows,
      ((cols.map (fun c => (c, getV r c))).map
        (fun p => (applyRename cfg.rename_columns p.1, p.2))) = r := by
    intro r hr
    have hinner : (cols.map (fun c => (c, getV r c))).map
        (fun p => (applyRename cfg.rename_columns p.1, p.2))
        = cols.map (fun c => (applyRename cfg.rename_columns c, getV r c)) := by
      rw [List.map_map]
      rfl
    rw [hinner]
    have hid : cols.map (fun c => (applyRename cfg.rename_columns c, getV r c))
        = cols.map (fun c => (c, getV r c)) :=
      List.map_congr_left (fun c hc => by rw [h3 c hc])
    rw [hid]
    exact assoc_reconstruct r cols (h5 r hr) h4
  rw [hcolsmap, List.map_congr_left hrows, List.map_id' rows]

/-- Witness for C7 at a concrete finalized table. -/
theorem claim_C7_witness :
    (cfgEx6.merge_indicator ∉ dfFinal7.cols) ∧ finalizeDF cfgEx6 dfFinal7 = dfFinal7 :=
  ⟨by decide,
   claim_C7 cfgEx6 dfFinal7 (by decide) (by decide) (by decide) (by decide) (by decide)⟩

/-- C8: reconciling two zero-row datasets whose columns contain the
configured merge key (and the comparison base columns) succeeds without an
error and returns four result tables each with zero rows. -/
theorem claim_C8 (cfg : Config) (cI cP : List String)
    (h1 : cfg.merge_key ∈ cI) (h2 : cfg.merge_key ∈ cP)
    (_h3 : ∀ p ∈ cfg.comparison_pairs, p.base ∈ cI ∧ p.base ∈ cP) :
    ∃ fr, Reconciler.reconcile cfg ⟨cI, []⟩ ⟨cP, []⟩ = Except.ok fr
      ∧ fr.matched.rows = [] ∧ fr.only_internal.rows = []
      ∧ fr.only_provider.rows = [] ∧ fr.mismatched.rows = [] := by
  have hm : merge_dataframes ⟨cI, []⟩ ⟨cP, []⟩ cfg
      = Except.ok ⟨mergedCols cfg ⟨cI, []⟩ ⟨cP, []⟩, mergeRows cfg ⟨cI, []⟩ ⟨cP, []⟩⟩ := by
    unfold merge_dataframes
    rw [if_pos ⟨h1, h2⟩]
  refine ⟨finalize_results
    (classify_merged_rows
      ⟨mergedCols cfg ⟨cI, []⟩ ⟨cP, []⟩, mergeRows cfg ⟨cI, []⟩ ⟨cP, []⟩⟩ cfg) cfg,
    ?_, rfl, rfl, rfl, rfl⟩
  unfold Reconciler.reconcile
  rw [hm]

/-- Witness for C8 at concrete empty frames. -/
theorem claim_C8_witness :
    ∃ fr, Reconciler.reconcile cfgEx
        ⟨["transaction_reference", "amount"], []⟩ ⟨["transaction_reference", "amount"], []⟩
        = Except.ok fr
      ∧ fr.matched.rows = [] ∧ fr.only_internal.rows = []
      ∧ fr.only_provider.rows = [] ∧ fr.mismatched.rows = [] :=
  claim_C8 cfgEx ["transaction_reference", "amount"] ["transaction_reference", "amount"]
    (by decide) (by decide) (by decide)

/-- C1: with at least one comparison pair, pairwise-distinct configured
marker values, and every merged row carrying one of the three marker values,
each merged row satisfies exactly one of the four category masks; the
matched and mismatched masks are mutually exclusive and cover exactly the
both-origin rows (so their row counts add up to the both-origin row count);
and rows with the left-only (right-only) marker land in the only_internal
(only_provider) output. -/
theorem claim_C1 (cfg : Config) (merged : DF)
    (hp : cfg.comparison_pairs ≠ [])
    (hd1 : cfg.merge_status.both ≠ cfg.merge_status.left_only)
    (hd2 : cfg.merge_status.both ≠ cfg.merge_status.right_only)
    (hd3 : cfg.merge_status.left_only ≠ cfg.merge_status.right_only)
    (hm : ∀ r ∈ merged.rows,
        getV r cfg.merge_indicator = Value.str cfg.merge_status.both
        ∨ getV r cfg.merge_indicator = Value.str cfg.merge_status.left_only
        ∨ getV r cfg.merge_indicator = Value.str cfg.merge_status.right_only) :
    (∀ r ∈ merged.rows,
        (matchCond cfg r).toNat + (onlyInternalCond cfg r).toNat
          + (onlyProviderCond cfg r).toNat + (mismatchCond cfg r).toNat = 1)
    ∧ (∀ r : Row, (matchCond cfg r = true ∨ mismatchCond cfg r = true)
          ↔ bothCond cfg r = true)
    ∧ (classify_merged_rows merged cfg).matched.rows.length
        + (classify_merged_rows merged cfg).mismatched.rows.length
        = (merged.rows.filter (bothCond cfg)).length
    ∧ (∀ r ∈ merged.rows, onlyInternalCond cfg r = true →
        setCol r "result" (Value.str cfg.result_labels.only_internal)
          ∈ (classify_merged_rows merged cfg).only_internal.rows)
    ∧ (∀ r ∈ merged.rows, onlyProviderCond cfg r = true →
        setCol r "result" (Value.str cfg.result_labels.only_provider)
          ∈ (classify_merged_rows merged cfg).only_provider.rows) := by
  have hdu : ∀ r : Row,
      (matchCond cfg r || mismatchCond cfg r) = bothCond cfg r
      ∧ (matchCond cfg r && mismatchCond cfg r) = false := by
    intro r
    rw [matchCond_eq, mismatchCond_eq cfg r hp]
    refine ⟨?_, ?_⟩ <;>
      cases bothCond cfg r <;> cases cfg.comparison_pairs.all (pairEq r) <;> rfl
  refine ⟨?_, ?_, ?_, ?_, ?_⟩
  · intro r hr
    rcases hm r hr with hB | hL | hR
    · have hbc : bothCond cfg r = true := decide_eq_true hB
      have hoi : onlyInternalCond cfg r = false := by
        unfold onlyInternalCond
        apply decide_eq_false
        rw [hB]
        intro hEq
        exact hd1 (Value.str.injEq _ _ ▸ hEq)
      have hop : onlyProviderCond cfg r = false := by
        unfold onlyProviderCond
        apply decide_eq_false
        rw [hB]
        intro hEq
        exact hd2 (Value.str.injEq _ _ ▸ hEq)
      rw [matchCond_eq, mismatchCond_eq cfg r hp, hbc, hoi, hop]
      cases hA : cfg.comparison_pairs.all (pairEq r) <;> rfl
    · have hbc : bothCond cfg r = false := by
        unfold bothCond
        apply decide_eq_false
        rw [hL]
        intro hEq
        exact hd1 ((Value.str.injEq _ _ ▸ hEq) : cfg.merge_status.left_only = cfg.merge_status.both).symm
      have hoi : onlyInternalCond cfg r = true := decide_eq_true hL
      have hop : onlyProviderCond cfg r = false := by
        unfold onlyProviderCond
        apply decide_eq_false
        rw [hL]
        intro hEq
        exact hd3 (Value.str.injEq _ _ ▸ hEq)
      rw [matchCond_eq, mismatchCond_eq cfg r hp, hbc, hoi, hop]
      rfl
    · have hbc : bothCond cfg r = false := by
        unfold bothCond
        apply decide_eq_false
        rw [hR]
        intro hEq
        exact hd2 ((Value.str.injEq _ _ ▸ hEq) : cfg.merge_status.right_only = cfg.merge_status.both).symm
      have hoi : onlyInternalCond cfg r = false := by
        unfold onlyInternalCond
        apply decide_eq_false
        rw [hR]
        intro hEq
        exact hd3 ((Value.str.injEq _ _ ▸ hEq) : cfg.merge_status.right_only = cfg.merge_status.left_only).symm
      have hop : onlyProviderCond cfg r = true := decide_eq_true hR
      rw [matchCond_eq, mismatchCond_eq cfg r hp, hbc, hoi, hop]
      rfl
  · intro r
    rw [← (hdu r).1, Bool.or_eq_true]
  · show ((merged.rows.filter (matchCond cfg)).map
        (fun r => setCol r "result" (Value.str cfg.result_labels.matched))).length
      + ((merged.rows.filter (mismatchCond cfg)).map
        (fun r => setCol r "result" (Value.str cfg.result_labels.mismatched))).length
      = (merged.rows.filter (bothCond cfg)).length
    rw [List.length_map, List.length_map]
    exact filter_partition_length _ _ _ merged.rows (fun r _ => hdu r)
  · intro r hr hc
    show setCol r "result" (Value.str cfg.result_labels.only_internal)
      ∈ (merged.rows.filter (onlyInternalCond cfg)).map
          (fun r => setCol r "result" (Value.str cfg.result_labels.only_internal))
    exact List.mem_map_of_mem _ (List.mem_filter.mpr ⟨hr, hc⟩)
  · intro r hr hc
    show setCol r "result" (Value.str cfg.result_labels.only_provider)
      ∈ (merged.rows.filter (onlyProviderCond cfg)).map
          (fun r => setCol r "result" (Value.str cfg.result_labels.only_provider))
    exact List.mem_map_of_mem _ (List.mem_filter.mpr ⟨hr, hc⟩)

/-- Witness for C1: matched and mismatched row counts partition the
both-origin rows of a concrete three-row merged table. -/
theorem claim_C1_witness :
    (classify_merged_rows mergedEx1 cfgEx).matched.rows.length
      + (classify_merged_rows mergedEx1 cfgEx).mismatched.rows.length
      = (mergedEx1.rows.filter (bothCond cfgEx)).length :=
  (claim_C1 cfgEx mergedEx1 (by decide) (by decide) (by decide) (by decide) (by decide)).2.2.1

/-- C6: finalization never changes row membership or order — each output
category table has exactly as many rows as its input, row `i` of the output
is row `i` of the input with only column-level changes (marker column
dropped, remaining columns renamed per configuration, every retained cell
value preserved under its renamed label), and the `result` column is
retained. -/
theorem claim_C6 (cfg : Config) (cl : Classified)
    (h : ∀ df ∈ [cl.matched, cl.only_internal, cl.only_provider, cl.mismatched],
        goodFinal cfg df) :
    List.Forall₂ (finalizeTableSpec cfg)
      [cl.matched, cl.only_internal, cl.only_provider, cl.mismatched]
      [(finalize_results cl cfg).matched, (finalize_results cl cfg).only_internal,
       (finalize_results cl cfg).only_provider, (finalize_results cl cfg).mismatched] := by
  have h1 := h cl.matched (by simp)
  have h2 := h cl.only_internal (by simp)
  have h3 := h cl.only_provider (by simp)
  have h4 := h cl.mismatched (by simp)
  exact List.Forall₂.cons (finalizeDF_spec cfg cl.matched h1)
    (List.Forall₂.cons (finalizeDF_spec cfg cl.only_internal h2)
      (List.Forall₂.cons (finalizeDF_spec cfg cl.only_provider h3)
        (List.Forall₂.cons (finalizeDF_spec cfg cl.mismatched h4) List.Forall₂.nil)))

/-- Witness for C6 at a concrete classified dictionary with a rename map. -/
theorem claim_C6_witness :
    List.Forall₂ (finalizeTableSpec cfgEx6)
      [clEx6.matched, clEx6.only_internal, clEx6.only_provider, clEx6.mismatched]
      [(finalize_results clEx6 cfgEx6).matched, (finalize_results clEx6 cfgEx6).only_internal,
       (finalize_results clEx6 cfgEx6).only_provider, (finalize_results clEx6 cfgEx6).mismatched] :=
  claim_C6 cfgEx6 clEx6 (by
    simp only [goodFinal]
    decide)

/-- C5 counterexample: with the key `T1` duplicated on two rows of the
internal dataset (both frames containing the key column), the outer join
emits two merged rows carrying key `T1`, refuting the claim that every key
value present in either dataset appears in exactly one merged row. -/
theorem claim_C5_cex :
    (mergedRowsOf (merge_dataframes dfIdup dfPempty cfgEx)).countP
        (fun r => decide (getV r "transaction_reference" = Value.str "T1")) = 2 := by
  decide

/-- C5 (amended): provided each input's key values are pairwise distinct
(no duplicate keys within a dataset) and the merged column labels are
collision-free, every key value present in either input appears in exactly
one merged row; a key present on both sides yields the single combined row
holding both sides' values; and an unmatched row carries null cells at
every column exclusive to the missing side. -/
theorem claim_C5 (cfg : Config) (dfI dfP : DF)
    (hkI : cfg.merge_key ∈ dfI.cols) (hkP : cfg.merge_key ∈ dfP.cols)
    (hcols : (mergedCols cfg dfI dfP).Nodup)
    (hNI : (dfI.rows.map (fun r => getV r cfg.merge_key)).Nodup)
    (hNP : (dfP.rows.map (fun r => getV r cfg.merge_key)).Nodup) :
    ∃ M, merge_dataframes dfI dfP cfg = Except.ok M
      ∧ (∀ v : Value,
          (v ∈ dfI.rows.map (fun r => getV r cfg.merge_key)
            ∨ v ∈ dfP.rows.map (fun r => getV r cfg.merge_key)) →
          M.rows.countP (fun r => decide (getV r cfg.merge_key = v)) = 1)
      ∧ (∀ rI ∈ dfI.rows, ∀ rP ∈ dfP.rows,
          getV rI cfg.merge_key = getV rP cfg.merge_key →
          bothRow cfg dfI.cols dfP.cols rI rP ∈ M.rows)
      ∧ (∀ r ∈ M.rows, getV r cfg.merge_indicator = Value.str "left_only" →
          ∀ c ∈ dfP.cols, c ≠ cfg.merge_key →
            getV r (suffixedName cfg.merge_key dfI.cols cfg.merge_suffixes.2 c) = Value.null)
      ∧ (∀ r ∈ M.rows, getV r cfg.merge_indicator = Value.str "right_only" →
          ∀ c ∈ dfI.cols, c ≠ cfg.merge_key →
            getV r (suffixedName cfg.merge_key dfP.cols cfg.merge_suffixes.1 c) = Value.null) := by
  have hm : merge_dataframes dfI dfP cfg
      = Except.ok ⟨mergedCols cfg dfI dfP, mergeRows cfg dfI dfP⟩ := by
    unfold merge_dataframes
    rw [if_pos ⟨hkI, hkP⟩]
  refine ⟨_, hm, ?_, ?_, ?_, ?_⟩
  · intro v hv
    exact mergeRows_countP cfg dfI dfP v hcols hkI hNI hNP hv
  · intro rI hrI rP hrP hkeq
    exact bothRow_mem_mergeRows cfg dfI dfP rI rP hrI hrP hkeq
  · intro r hrm hind c hc hck
    rcases mem_mergeRows_cases cfg dfI dfP hrm with ⟨rI, _, rfl⟩ | ⟨rI, rP, _, _, rfl⟩ | ⟨rP, _, rfl⟩
    · exact getV_leftOnlyRow_rightCol cfg dfI dfP rI hcols hc hck
    · rw [getV_bothRow_ind cfg dfI dfP rI rP hcols] at hind
      exact absurd hind (by decide)
    · rw [getV_rightOnlyRow_ind cfg dfI dfP rP hcols] at hind
      exact absurd hind (by decide)
  · intro r hrm hind c hc hck
    rcases mem_mergeRows_cases cfg dfI dfP hrm with ⟨rI, _, rfl⟩ | ⟨rI, rP, _, _, rfl⟩ | ⟨rP, _, rfl⟩
    · rw [getV_leftOnlyRow_ind cfg dfI dfP rI hcols] at hind
      exact absurd hind (by decide)
    · rw [getV_bothRow_ind cfg dfI dfP rI rP hcols] at hind
      exact absurd hind (by decide)
    · exact getV_rightOnlyRow_leftCol cfg dfI dfP rP hcols hc hck

/-- Witness for C5 at concrete duplicate-free frames. -/
theorem claim_C5_witness :
    (mergedRowsOf (merge_dataframes dfIEx5 dfPEx5 cfgEx)).countP
        (fun r => decide (getV r cfgEx.merge_key = Value.str "T2")) = 1 := by
  obtain ⟨M, hM, hcount, hboth, hleft, hright⟩ :=
    claim_C5 cfgEx dfIEx5 dfPEx5 (by decide) (by decide) (by decide) (by decide) (by decide)
  rw [hM]
  exact hcount (Value.str "T2") (Or.inr (by decide))
